import Mathlib

/-!
Verification of the parsely recipe extraction-and-sync pipeline.

We shallowly embed the core logic of the schema extractor
(`RecipeSchemaProcessor` in `src/utils/schema.ts`), the Notion store
client (`src/managers/notion.ts`, `src/utils/notion.ts`) and the batch
orchestrator (`src/commands/chop.ts`) as executable Lean definitions, and
prove the specified properties about them.

JSON values parsed from `<script type="application/ld+json">` blocks are
modelled by the inductive type `Json`; JavaScript truthiness, field
access, `String(...)` conversion and `parseInt` are modelled explicitly.
-/

/-- A parsed JSON value (the result of a successful `JSON.parse`). -/
inductive Json where
  | null : Json
  | bool (b : Bool) : Json
  | num (n : Int) : Json
  | str (s : String) : Json
  | arr (elems : List Json) : Json
  | obj (fields : List (String × Json)) : Json

namespace Json

/-- JavaScript property access `data[k]`: `some v` when the object has the
field, `none` when absent or when `data` is not an object. -/
def getField : Json → String → Option Json
  | .obj fields, k => (fields.find? (fun f => f.1 == k)).map (·.2)
  | _, _ => none

/-- JavaScript `k in data` for our object model. -/
def hasField (j : Json) (k : String) : Bool :=
  (j.getField k).isSome

/-- JavaScript truthiness of a value. -/
def truthy : Json → Bool
  | .null => false
  | .bool b => b
  | .num n => n != 0
  | .str s => s ≠ ""
  | .arr _ => true
  | .obj _ => true

end Json

/-- Truthiness of `rd[k]` (absent fields are `undefined`, hence falsy). -/
def truthyField (rd : Json) (k : String) : Bool :=
  match rd.getField k with
  | some v => v.truthy
  | none => false

/-- `t === "Recipe" || (Array.isArray(t) && t.includes("Recipe"))`; the
strict-equality membership test only ever matches the string `"Recipe"`. -/
def typeIsRecipe : Json → Bool
  | .str s => s == "Recipe"
  | .arr ts => ts.any (fun t =>
      match t with
      | .str s => s == "Recipe"
      | _ => false)
  | _ => false

/-- The `@graph`-array find predicate used by `extractRecipeData`:
`typeof item === "object" && item !== null && "@type" in item && ...`. -/
def isRecipeTypedItem (item : Json) : Bool :=
  match item with
  | .obj _ =>
    match item.getField "@type" with
    | some t => typeIsRecipe t
    | none => false
  | _ => false

/-- `RecipeSchemaProcessor.extractRecipeData`: unwrap a top-level `@graph`
array by locating the first `Recipe`-typed entry, else return the schema
itself. -/
def extractRecipeData (schema : Json) : Json :=
  match schema.getField "@graph" with
  | some (.arr graphData) =>
    match graphData.find? isRecipeTypedItem with
    | some recipe => recipe
    | none => schema
  | _ => schema

/-- `RecipeSchemaProcessor.isSchemaRecipe` (src/utils/schema.ts, the scored
revision): the value must be a non-null object whose `@context` is exactly
`"https://schema.org"` or `"http://schema.org"`, whose effective entity
(after `@graph` unwrapping) is `Recipe`-typed, has a `name` field, and has
`recipeIngredient` or `recipeInstructions`. -/
def isSchemaRecipe (data : Json) : Bool :=
  match data with
  | .obj _ =>
    (match data.getField "@context" with
     | some (.str c) => c == "https://schema.org" || c == "http://schema.org"
     | _ => false) &&
    (let recipeData := extractRecipeData data
     (match recipeData.getField "@type" with
      | some t => typeIsRecipe t
      | none => false) &&
     (recipeData.hasField "name" &&
      (recipeData.hasField "recipeIngredient" ||
       recipeData.hasField "recipeInstructions")))
  | _ => false

/-- Length bonus of `scoreRecipeSchema`: `Math.min(length, 5)` for each of
the two array-valued fields, 0 when the field is not an array. -/
def lengthBonus (recipeData : Json) : Nat :=
  (match recipeData.getField "recipeIngredient" with
   | some (.arr xs) => min xs.length 5
   | _ => 0) +
  (match recipeData.getField "recipeInstructions" with
   | some (.arr xs) => min xs.length 5
   | _ => 0)

/-- `RecipeSchemaProcessor.scoreRecipeSchema`: +10 for each core field
present (truthy), +2 for cuisine/prepTime/cookTime/yield, +1 for
description/author, plus the capped array-length bonuses. -/
def scoreRecipeSchema (schema : Json) : Nat :=
  let recipeData := extractRecipeData schema
  (if truthyField recipeData "name" then 10 else 0) +
  (if truthyField recipeData "recipeIngredient" then 10 else 0) +
  (if truthyField recipeData "recipeInstructions" then 10 else 0) +
  (if truthyField recipeData "recipeCuisine" then 2 else 0) +
  (if truthyField recipeData "prepTime" then 2 else 0) +
  (if truthyField recipeData "cookTime" then 2 else 0) +
  (if truthyField recipeData "recipeYield" then 2 else 0) +
  (if truthyField recipeData "description" then 1 else 0) +
  (if truthyField recipeData "author" then 1 else 0) +
  lengthBonus recipeData

/-- Stable insertion into a list sorted by descending score, modelling the
stable `Array.prototype.sort((a, b) => b.score - a.score)`. -/
def insertDesc (x : Json × Nat) : List (Json × Nat) → List (Json × Nat)
  | [] => [x]
  | y :: ys => if x.2 ≤ y.2 then y :: insertDesc x ys else x :: y :: ys

/-- Stable sort by descending score. -/
def sortDesc (l : List (Json × Nat)) : List (Json × Nat) :=
  l.foldr insertDesc []

/-- An HTML document as seen by `extractFromHtml`: its URL, its raw length
(`html.length`), and the `JSON.parse` outcome of each
`<script type="application/ld+json">` block in document order (`none`
models a parse failure, which the code silently skips). -/
structure HtmlDoc where
  url : String
  htmlLength : Nat
  scripts : List (Option Json)

/-- The diagnostic context attached to the `NO_SCHEMA_FOUND`
`SchemaValidationError`. -/
structure NoSchemaError where
  url : String
  htmlLength : Nat
  jsonLdCount : Nat
deriving DecidableEq

/-- The qualifying candidates of a document, in document order. -/
def qualifyingSchemas (doc : HtmlDoc) : List Json :=
  (doc.scripts.filterMap id).filter isSchemaRecipe

/-- `RecipeSchemaProcessor.extractFromHtml`: parse every JSON-LD block
(skipping malformed ones), keep candidates accepted by `isSchemaRecipe`,
score them, sort by descending score, and push only the top-scored schema;
throw `NO_SCHEMA_FOUND` with diagnostic context when no candidate
qualifies. -/
def extractFromHtml (doc : HtmlDoc) : Except NoSchemaError (List Json) :=
  let recipeSchemas :=
    (qualifyingSchemas doc).map (fun s => (s, scoreRecipeSchema s))
  let sorted := sortDesc recipeSchemas
  let schemas : List Json :=
    match sorted with
    | [] => []
    | top :: _ => [top.1]
  if schemas.isEmpty then
    .error ⟨doc.url, doc.htmlLength, doc.scripts.length⟩
  else
    .ok schemas

/-! ### Duration parsing (`NotionRecipeManager.parseTimeToMinutes`) -/

/-- Decimal value of a digit list (the value `parseInt` gives a pure digit
string). -/
def digitsVal (ds : List Char) : Nat :=
  ds.foldl (fun acc c => acc * 10 + (c.toNat - '0'.toNat)) 0

/-- Group 1 of the leftmost match of the regex `/(\d+)c/` in a character
list: the maximal digit run immediately followed by the character `c`.
(A shorter, backtracked run cannot match, since the character after it
would be a digit, not `c`.) -/
def firstDigitRunBefore (c : Char) : List Char → Option (List Char)
  | [] => none
  | x :: xs =>
    if x.isDigit then
      let run := (x :: xs).takeWhile Char.isDigit
      let rest := (x :: xs).dropWhile Char.isDigit
      match rest with
      | y :: _ => if y == c then some run else firstDigitRunBefore c xs
      | [] => firstDigitRunBefore c xs
    else firstDigitRunBefore c xs

/-- A JavaScript `parseInt` result: a number or `NaN`. -/
inductive JsInt where
  | nan : JsInt
  | val (n : Int) : JsInt
deriving DecidableEq

/-- JavaScript `parseInt(s)` in base 10: skip leading whitespace, read an
optional sign and then leading decimal digits; `NaN` when no digit is
found. -/
def jsParseInt (s : String) : JsInt :=
  let cs := s.data.dropWhile Char.isWhitespace
  match cs with
  | '-' :: rest =>
    match rest.takeWhile Char.isDigit with
    | [] => .nan
    | ds => .val (-(digitsVal ds : Int))
  | '+' :: rest =>
    match rest.takeWhile Char.isDigit with
    | [] => .nan
    | ds => .val (digitsVal ds)
  | _ =>
    match cs.takeWhile Char.isDigit with
    | [] => .nan
    | ds => .val (digitsVal ds)

/-- The result of `parseTimeToMinutes`, whose JavaScript type is
`number | null`: an integer minute count, `NaN` (from `parseInt` on a
`"min"`-containing string without a leading integer), or `null`. -/
inductive TimeResult where
  | mins (n : Int) : TimeResult
  | nan : TimeResult
  | null : TimeResult
deriving DecidableEq

/-- JavaScript `haystack.includes(needle)` on character lists. -/
def containsSub (needle : List Char) : List Char → Bool
  | [] => needle.isEmpty
  | x :: xs => needle.isPrefixOf (x :: xs) || containsSub needle xs

/-- `timeStr.startsWith("PT")`. -/
def startsWithPT (timeStr : String) : Bool :=
  ['P', 'T'].isPrefixOf timeStr.data

/-- `timeStr.toLowerCase().includes("min")`. -/
def includesMin (timeStr : String) : Bool :=
  containsSub ['m', 'i', 'n'] (timeStr.data.map Char.toLower)

/-- `NotionRecipeManager.parseTimeToMinutes`: ISO `PT#H#M` durations are
converted to minutes (a missing hour or minute component defaults to
`"0"`); otherwise strings containing `"min"` go through `parseInt`;
anything else is `null`. The surrounding `try/catch` never fires — the
function is total. -/
def parseTimeToMinutes (timeStr : String) : TimeResult :=
  if startsWithPT timeStr then
    let hours := (firstDigitRunBefore 'H' timeStr.data).getD ['0']
    let minutes := (firstDigitRunBefore 'M' timeStr.data).getD ['0']
    .mins (digitsVal hours * 60 + digitsVal minutes)
  else if includesMin timeStr then
    match jsParseInt timeStr with
    | .nan => .nan
    | .val n => .mins n
  else
    .null

/-! ### Store retry policy (`retry` in src/utils/notion.ts) -/

/-- A JavaScript exception as classified by `isNotionAPIResponseError`:
either an object carrying `code` and `status` fields (a Notion API
response error, whose `message` the managers splice into wrapped errors)
or any other thrown value. -/
inductive JsError where
  | api (code : String) (status : Nat) (message : String) : JsError
  | other (message : String) : JsError
deriving DecidableEq

/-- `isNotionAPIResponseError(error) && error.code === "conflict_error"`:
the conflict-class test that gates a retry. -/
def isRetryableConflict : JsError → Bool
  | .api code _ _ => code == "conflict_error"
  | .other _ => false

/-- `retry(operation, retries, delay)`. The operation is modelled as a
function from the attempt index (0-based) to its outcome; the model
returns the final outcome together with the list of backoff delays that
were awaited, in order. Each retry consumes one unit of the `retries`
budget and doubles the delay. -/
def retryModel {T : Type} (op : Nat → Except JsError T) :
    Nat → Nat → Nat → Except JsError T × List Nat
  | 0, _, attempt =>
    match op attempt with
    | .ok t => (.ok t, [])
    | .error e => (.error e, [])
  | r + 1, delay, attempt =>
    match op attempt with
    | .ok t => (.ok t, [])
    | .error e =>
      if isRetryableConflict e then
        let res := retryModel op r (delay * 2) (attempt + 1)
        (res.1, delay :: res.2)
      else (.error e, [])

/-- `retry` with its default arguments (`retries = 3`, `delay = 1000`),
starting at the first attempt. -/
def retryDefault {T : Type} (op : Nat → Except JsError T) :
    Except JsError T × List Nat :=
  retryModel op 3 1000 0

/-! ### Store-call structure of `NotionRecipeManager` (src/managers/notion.ts) -/

/-- The attempt-indexed outcomes of the Notion client calls issued by
`NotionRecipeManager`: for each call site, index `i` is the outcome of its
`(i+1)`-th invocation, so an unretried call only ever observes index 0.
`blocksList` is the collected block-pagination result of `updateRecipe`
step 2 (itself unretried). -/
structure NotionStore where
  pagesCreate : Nat → Except JsError String
  pagesUpdate : Nat → Except JsError Unit
  blocksList : Except JsError (List String)
  blocksDelete : String → Nat → Except JsError Unit
  childrenAppend : Nat → Except JsError Unit
  query : Nat → Except JsError (Option String)

/-- `createRecipe`'s catch clause: an API-shaped error is rethrown as
`new Error("Failed to create recipe: " + error.message)`, anything else
is rethrown as-is. -/
def wrapCreateError : JsError → JsError
  | .api _ _ message => .other ("Failed to create recipe: " ++ message)
  | .other message => .other message

/-- `updateRecipe`'s catch clause, wrapping API errors with
`"Failed to update recipe: "`. -/
def wrapUpdateError : JsError → JsError
  | .api _ _ message => .other ("Failed to update recipe: " ++ message)
  | .other message => .other message

/-- `findRecipeByUrl`'s catch clause, wrapping API errors with
`"Failed to search for recipe: "`. -/
def wrapFindError : JsError → JsError
  | .api _ _ message => .other ("Failed to search for recipe: " ++ message)
  | .other message => .other message

/-- `NotionRecipeManager.createRecipe`'s store interaction: a single
`pages.create` call with no `retry` wrapper — only invocation 0 ever
happens, and any error (conflict-class included) propagates immediately
through the catch clause with no backoff delay. -/
def createRecipe (store : NotionStore) : Except JsError String × List Nat :=
  match store.pagesCreate 0 with
  | .ok pageId => (.ok pageId, [])
  | .error e => (.error (wrapCreateError e), [])

/-- `NotionRecipeManager.findRecipeByUrl`'s store interaction: a single
unretried database query. -/
def findRecipeByUrl (store : NotionStore) :
    Except JsError (Option String) × List Nat :=
  match store.query 0 with
  | .ok found => (.ok found, [])
  | .error e => (.error (wrapFindError e), [])

/-- Step 3 of `updateRecipe`: delete each collected block in order, each
deletion individually wrapped in `retry`; the first failure aborts the
loop. The returned list holds the retry backoff delays (the fixed 100ms
inter-delete pauses are not backoff). -/
def deleteBlocksLoop (del : String → Nat → Except JsError Unit) :
    List String → Except JsError Unit × List Nat
  | [] => (.ok (), [])
  | blockId :: blockIds =>
    let res := retryModel (del blockId) 3 1000 0
    match res.1 with
    | .error e => (.error e, res.2)
    | .ok _ =>
      let rest := deleteBlocksLoop del blockIds
      (rest.1, res.2 ++ rest.2)

/-- `NotionRecipeManager.updateRecipe`'s store interaction: the property
update, each block deletion, and the content append are each wrapped in
`retry` (independently, not as one unit); the block listing is not.
Returns the outcome and the concatenated retry backoff delays. -/
def updateRecipe (store : NotionStore) : Except JsError Unit × List Nat :=
  match retryModel store.pagesUpdate 3 1000 0 with
  | (.error e, ds1) => (.error (wrapUpdateError e), ds1)
  | (.ok _, ds1) =>
    match store.blocksList with
    | .error e => (.error (wrapUpdateError e), ds1)
    | .ok blockIds =>
      match deleteBlocksLoop store.blocksDelete blockIds with
      | (.error e, ds2) => (.error (wrapUpdateError e), ds1 ++ ds2)
      | (.ok _, ds2) =>
        match retryModel store.childrenAppend 3 1000 0 with
        | (.error e, ds3) => (.error (wrapUpdateError e), ds1 ++ ds2 ++ ds3)
        | (.ok _, ds3) => (.ok (), ds1 ++ ds2 ++ ds3)

/-! ### Transform (`RecipeSchemaProcessor.transform` and helpers) -/

mutual

/-- JavaScript `String(value)` for the values of our JSON model. -/
def jsToString : Json → String
  | .null => "null"
  | .bool true => "true"
  | .bool false => "false"
  | .num n => toString n
  | .str s => s
  | .arr xs => String.intercalate "," (jsToStringList xs)
  | .obj _ => "[object Object]"

/-- Elementwise conversion used by `Array.prototype.toString` (`null`
elements render as the empty string). -/
def jsToStringList : List Json → List String
  | [] => []
  | .null :: xs => "" :: jsToStringList xs
  | x :: xs => jsToString x :: jsToStringList xs

end

/-- One canonical instruction step, `{ text: string }`. -/
structure Instruction where
  text : String
deriving DecidableEq

/-- `RecipeSchemaProcessor.extractInstructions` applied to one array
element: strings become `{text: s}`, objects with a `text` field become
`{text: String(obj.text)}`, anything else is stringified. -/
def instrOfJson (instruction : Json) : Instruction :=
  match instruction with
  | .str s => ⟨s⟩
  | .obj _ =>
    match instruction.getField "text" with
    | some t => ⟨jsToString t⟩
    | none => ⟨jsToString instruction⟩
  | _ => ⟨jsToString instruction⟩

/-- `RecipeSchemaProcessor.extractInstructions`: falsy input gives `[]`,
an array is mapped elementwise, a remaining scalar is wrapped as a single
stringified step. -/
def extractInstructions (value : Option Json) : List Instruction :=
  match value with
  | none => []
  | some v =>
    if v.truthy then
      match v with
      | .arr xs => xs.map instrOfJson
      | _ => [⟨jsToString v⟩]
    else []

/-- `RecipeSchemaProcessor.extractText`: falsy gives `null`; an array
gives its first element (`undefined`, modelled `none`, when empty);
otherwise the value itself. -/
def extractText (value : Option Json) : Option Json :=
  match value with
  | none => none
  | some v =>
    if v.truthy then
      match v with
      | .arr xs => xs.head?
      | _ => some v
    else none

/-- `RecipeSchemaProcessor.extractArray`: falsy gives `[]`, an array is
kept, a scalar is wrapped. -/
def extractArray (value : Option Json) : List Json :=
  match value with
  | none => []
  | some v =>
    if v.truthy then
      match v with
      | .arr xs => xs
      | _ => [v]
    else []

/-- JavaScript `x || d` on an optional value. -/
def jsOr (o : Option Json) (d : Json) : Json :=
  match o with
  | some v => if v.truthy then v else d
  | none => d

/-- Split on the regex `/,\s*/`: each separator is a comma followed by the
maximal run of whitespace. -/
def splitCommaWsGo : List Char → List Char → List (List Char)
  | [], cur => [cur.reverse]
  | ',' :: rest, cur =>
    cur.reverse :: splitCommaWsGo (rest.dropWhile Char.isWhitespace) []
  | c :: rest, cur => splitCommaWsGo rest (c :: cur)
termination_by l _ => l.length
decreasing_by
  · have := (List.dropWhile_sublist (l := rest) Char.isWhitespace).length_le
    simp only [List.length_cons]
    omega
  · simp only [List.length_cons]
    omega

/-- `value.split(/,\s*/)`. -/
def splitCommaWs (s : String) : List String :=
  (splitCommaWsGo s.data []).map (fun cs => String.mk cs)

/-- `RecipeSchemaProcessor.extractKeywords`: falsy gives `[]`, a string is
split on `/,\s*/`, an array is kept as-is, anything else gives `[]`. -/
def extractKeywords (value : Json) : List Json :=
  if value.truthy then
    match value with
    | .str s => (splitCommaWs s).map Json.str
    | .arr xs => xs
    | _ => []
  else []

/-- `source.schemaType`: for an array `@type`, the element equal to
`"Recipe"` or the `"Recipe"` literal as fallback; a scalar `@type` is used
directly; `none` models the `undefined` of a missing `@type`. -/
def schemaTypeOf (recipeData : Json) : Option Json :=
  match recipeData.getField "@type" with
  | some (.arr ts) =>
    some (match ts.find? (fun t =>
            match t with
            | .str s => s == "Recipe"
            | _ => false) with
          | some t => t
          | none => .str "Recipe")
  | some t => some t
  | none => none

/-- Provenance record attached to a transformed recipe. -/
structure SourceInfo where
  url : String
  schemaType : Option Json
  rawSchema : Json

/-- The canonical recipe model (`Recipe` in src/types/recipe.ts) as
produced by `transform`; dynamically-typed text fields keep their raw
JSON value. -/
structure Recipe where
  name : Json
  ingredients : List Json
  instructions : List Instruction
  cuisineType : Option Json
  prepTime : Option Json
  cookTime : Option Json
  totalTime : Option Json
  recipeYield : Option Json
  notes : Option Json
  description : Option Json
  category : Option Json
  keywords : List Json
  url : String
  source : SourceInfo

/-- `RecipeSchemaProcessor.transform` (src/utils/schema.ts, scored
revision): validate, unwrap `@graph`, extract every canonical field, fold
overflow categories into keywords, and record provenance. Throwing
`validate` is modelled by the `Except` error. -/
def transform (schema : Json) : Except String Recipe :=
  if isSchemaRecipe schema then
    let recipeData := extractRecipeData schema
    let category := extractText (recipeData.getField "recipeCategory")
    let keywords0 := extractKeywords (jsOr (recipeData.getField "keywords") (.arr []))
    let keywords :=
      match recipeData.getField "recipeCategory" with
      | some (.arr cats) => keywords0 ++ cats.drop 1
      | _ => keywords0
    .ok
      { name := jsOr (extractText (recipeData.getField "name")) (.str "")
        ingredients := extractArray (recipeData.getField "recipeIngredient")
        instructions := extractInstructions (recipeData.getField "recipeInstructions")
        cuisineType := extractText (recipeData.getField "recipeCuisine")
        prepTime := extractText (recipeData.getField "prepTime")
        cookTime := extractText (recipeData.getField "cookTime")
        totalTime := extractText (recipeData.getField "totalTime")
        recipeYield := extractText (recipeData.getField "recipeYield")
        notes := none
        description := extractText (recipeData.getField "description")
        category := category
        keywords := keywords
        url :=
          match recipeData.getField "url" with
          | some (.str u) => u
          | _ => ""
        source :=
          { url :=
              match recipeData.getField "url" with
              | some (.str u) => u
              | _ => ""
            schemaType := schemaTypeOf recipeData
            rawSchema := schema } }
  else
    .error "Invalid Schema.org/Recipe data"

/-! ### Persisted content body (`NotionRecipeManager.createRecipe`) -/

/-- A Notion content block as built by `createRecipe`'s `children`
array. -/
inductive Block where
  | heading2 (content : String) : Block
  | bulletItem (content : Json) : Block
  | numberedItem (content : String) : Block
  | paragraph (content : Json) : Block

/-- The conditional "Notes" section,
`...(recipe.notes ? [heading, paragraph] : [])`. -/
def notesSection (notes : Option Json) : List Block :=
  match notes with
  | some v => if v.truthy then [Block.heading2 "Notes", Block.paragraph v] else []
  | none => []

/-- The conditional trailing description paragraph,
`...(recipe.description ? [paragraph] : [])`. -/
def descSection (description : Option Json) : List Block :=
  match description with
  | some v => if v.truthy then [Block.paragraph v] else []
  | none => []

/-- The `children` block list of `NotionRecipeManager.createRecipe`: an
"Ingredients" heading, one bullet per ingredient, an "Instructions"
heading, one numbered item per instruction in order, then conditional
"Notes" and description sections. -/
def createChildren (recipe : Recipe) : List Block :=
  [Block.heading2 "Ingredients"] ++
  recipe.ingredients.map (fun ingredient => Block.bulletItem ingredient) ++
  [Block.heading2 "Instructions"] ++
  recipe.instructions.map (fun instruction => Block.numberedItem instruction.text) ++
  notesSection recipe.notes ++
  descSection recipe.description

/-- The text of a numbered list item, `none` for every other block. -/
def numberedText : Block → Option String
  | .numberedItem content => some content
  | _ => none

/-! ### Batch orchestrator (`executeChop` in src/commands/chop.ts) -/

/-- JavaScript `String.prototype.trim`: drop whitespace from both ends. -/
def wsDropBoth (l : List Char) : List Char :=
  ((l.dropWhile Char.isWhitespace).reverse.dropWhile Char.isWhitespace).reverse

/-- `url.trim()`. -/
def jsTrim (s : String) : String :=
  String.mk (wsDropBoth s.data)

/-- Split a character list at every newline (`String.prototype.split` with
separator `"\n"`): the pieces between consecutive newlines, in order,
empty pieces included. -/
def splitNlGo : List Char → List Char → List (List Char)
  | [], cur => [cur.reverse]
  | '\n' :: rest, cur => cur.reverse :: splitNlGo rest []
  | c :: rest, cur => splitNlGo rest (c :: cur)

/-- `content.split("\n")`. -/
def jsSplitNewline (content : String) : List String :=
  (splitNlGo content.data []).map (fun cs => String.mk cs)

/-- The URL-list construction of `executeChop` for a batch input file:
`content.split("\n").filter(Boolean).map((url) => url.trim())` — note the
empty-string filter runs before trimming. -/
def parseUrlList (content : String) : List String :=
  ((jsSplitNewline content).filter (fun line => line != "")).map jsTrim

/-- The options consumed by the orchestrator model. -/
structure ChopOptions where
  validateOnly : Bool
  batchSize : Option Nat

/-- `options.batchSize || 5`: an absent or zero (falsy) batch size falls
back to 5, so the effective batch size is always positive. -/
def effectiveBatchSize (opts : ChopOptions) : Nat :=
  match opts.batchSize with
  | none => 5
  | some 0 => 5
  | some (n + 1) => n + 1

/-- The batch partition produced by
`for (let i = 0; i < urls.length; i += batchSize) urls.slice(i, i + batchSize)`. -/
def chunkUrls (batchSize : Nat) (urls : List String) : List (List String) :=
  if _h : urls.isEmpty || batchSize == 0 then []
  else urls.take batchSize :: chunkUrls batchSize (urls.drop batchSize)
termination_by urls.length
decreasing_by
  simp only [Bool.or_eq_true, beq_iff_eq, List.isEmpty_iff, not_or] at _h
  obtain ⟨h1, h2⟩ := _h
  have hlen : urls.length ≠ 0 := fun hl => h1 (List.length_eq_zero.mp hl)
  simp only [List.length_drop]
  omega

/-- The per-URL result recorded by the orchestrator. -/
inductive UrlOutcome where
  | succeeded (recipeId : String) : UrlOutcome
  | failed (errMsg : String) : UrlOutcome
  | skipped (reason : String) : UrlOutcome
deriving DecidableEq

/-- The outcomes of this URL's external effects: the store existence
lookup, the overwrite prompt, the page fetch, the interactive review, and
the store update/create calls. An `Except.error` models a thrown
exception's message. -/
structure UrlEffects where
  findResult : Except String (Option String)
  confirmUpdate : Bool
  fetchedDoc : Except String HtmlDoc
  reviewOutcome : Except String (Option Recipe)
  updateResult : Except String Unit
  createResult : Except String String

/-- The per-URL pipeline body of `executeChop`, with the `try/catch`
boundary folded in: any stage's exception becomes a `failed` outcome and
each path records exactly one outcome. `urlCount` is `urls.length`, which
gates the interactive review. -/
def processUrl (opts : ChopOptions) (urlCount : Nat) (fx : UrlEffects) : UrlOutcome :=
  match fx.findResult with
  | .error msg => .failed msg
  | .ok existingId =>
    if existingId.isSome && !fx.confirmUpdate then
      .skipped "Recipe already exists"
    else
      match fx.fetchedDoc with
      | .error msg => .failed msg
      | .ok doc =>
        match extractFromHtml doc with
        | .error _ => .failed "No valid recipe schema found"
        | .ok schemas =>
          if opts.validateOnly then
            .succeeded "validated"
          else
            match schemas with
            | [] => .failed "Invalid Schema.org/Recipe data"
            | schema :: _ =>
              match transform schema with
              | .error msg => .failed msg
              | .ok recipe =>
                match (if urlCount == 1 then fx.reviewOutcome else .ok (some recipe)) with
                | .error msg => .failed msg
                | .ok none => .skipped "User cancelled"
                | .ok (some _) =>
                  match existingId with
                  | some pageId =>
                    match fx.updateResult with
                    | .error msg => .failed msg
                    | .ok _ => .succeeded pageId
                  | none =>
                    match fx.createResult with
                    | .error msg => .failed msg
                    | .ok pageId => .succeeded pageId

/-- The orchestrator's tri-state result report. -/
structure BatchResults where
  successful : List (String × String)
  failed : List (String × String)
  skipped : List (String × String)
deriving DecidableEq

/-- Record one URL's outcome by appending to the matching result list. -/
def pushOutcome (res : BatchResults) (url : String) : UrlOutcome → BatchResults
  | .succeeded recipeId => { res with successful := res.successful ++ [(url, recipeId)] }
  | .failed msg => { res with failed := res.failed ++ [(url, msg)] }
  | .skipped reason => { res with skipped := res.skipped ++ [(url, reason)] }

/-- Process the URLs of one batch, accumulating results. -/
def processUrls (env : String → UrlEffects) (opts : ChopOptions) (urlCount : Nat)
    (batch : List String) (res : BatchResults) : BatchResults :=
  batch.foldl (fun acc url => pushOutcome acc url (processUrl opts urlCount (env url))) res

/-- `executeChop`'s batch loop: partition the URL list into consecutive
batches of the effective batch size and process the batches in order.
`env` supplies each URL's external-effect outcomes. -/
def executeChop (env : String → UrlEffects) (opts : ChopOptions)
    (urls : List String) : BatchResults :=
  (chunkUrls (effectiveBatchSize opts) urls).foldl
    (fun res batch => processUrls env opts urls.length batch res) ⟨[], [], []⟩

/-! ## Claim theorems -/

/-- C5: duration-to-minutes parsing maps `"PT1H30M"` to 90 and `"45 min"`
to 45 (integer-prefix extraction), and any string of neither form — not
`PT`-prefixed and not containing `"min"` case-insensitively, such as
`"tonight"` — to the absent value `null`; the function is total, so no
input throws. -/
theorem parseTimeToMinutes_forms :
    parseTimeToMinutes "PT1H30M" = .mins 90 ∧
    parseTimeToMinutes "45 min" = .mins 45 ∧
    parseTimeToMinutes "tonight" = .null ∧
    (∀ s : String, startsWithPT s = false → includesMin s = false →
      parseTimeToMinutes s = .null) :=
  ⟨rfl, rfl, rfl, fun s h1 h2 => by simp [parseTimeToMinutes, h1, h2]⟩

/-- Witness for C5 at the concrete input `"tonight"`. -/
theorem parseTimeToMinutes_forms_witness :
    startsWithPT "tonight" = false ∧ includesMin "tonight" = false ∧
    parseTimeToMinutes "tonight" = .null :=
  ⟨by decide, by decide,
   parseTimeToMinutes_forms.2.2.2 "tonight" (by decide) (by decide)⟩

/-- C10: every `"PT"`-prefixed string parses to a (possibly zero)
nonnegative integer minute count — a seconds-only `"PT20S"` and a
malformed `"PTxyz"` both give 0, never the absent value. -/
theorem parseTimeToMinutes_pt_total :
    (∀ s : String, startsWithPT s = true →
      ∃ n : Nat, parseTimeToMinutes s = .mins (n : Int)) ∧
    parseTimeToMinutes "PT20S" = .mins 0 ∧
    parseTimeToMinutes "PTxyz" = .mins 0 := by
  refine ⟨fun s h1 => ?_, rfl, rfl⟩
  simp only [parseTimeToMinutes, h1, if_true]
  exact ⟨digitsVal ((firstDigitRunBefore 'H' s.data).getD ['0']) * 60 +
    digitsVal ((firstDigitRunBefore 'M' s.data).getD ['0']), by push_cast; ring_nf⟩

/-- Witness for C10 at the concrete input `"PT20S"`. -/
theorem parseTimeToMinutes_pt_total_witness :
    startsWithPT "PT20S" = true ∧
    ∃ n : Nat, parseTimeToMinutes "PT20S" = .mins (n : Int) :=
  ⟨by decide, parseTimeToMinutes_pt_total.1 "PT20S" (by decide)⟩

/-- The `retry` combinator's policy: operations it wraps are retried on
conflict-class errors with exponentially doubling backoff up to the
`retries` ceiling; non-conflict errors propagate immediately with no
delay; a conflict on the first attempt followed by success on the second
ends in success after exactly one delay (the base 1000ms under the
defaults). -/
theorem retry_conflict_policy {T : Type} :
    (∀ (op : Nat → Except JsError T) (retries delay attempt : Nat) (e : JsError),
       op attempt = .error e → isRetryableConflict e = false →
       retryModel op retries delay attempt = (.error e, [])) ∧
    (∀ (op : Nat → Except JsError T) (r delay attempt : Nat) (e : JsError),
       op attempt = .error e → isRetryableConflict e = true →
       retryModel op (r + 1) delay attempt =
         ((retryModel op r (delay * 2) (attempt + 1)).1,
          delay :: (retryModel op r (delay * 2) (attempt + 1)).2)) ∧
    (∀ (op : Nat → Except JsError T) (retries delay attempt : Nat),
       (retryModel op retries delay attempt).2.length ≤ retries ∧
       (retryModel op retries delay attempt).2 =
         (List.range (retryModel op retries delay attempt).2.length).map
           (fun i => delay * 2 ^ i)) ∧
    (∀ (op : Nat → Except JsError T) (e : JsError) (t : T),
       isRetryableConflict e = true → op 0 = .error e → op 1 = .ok t →
       retryDefault op = (.ok t, [1000])) := by
  refine ⟨fun op retries delay attempt e hop hconf => ?_,
          fun op r delay attempt e hop hconf => ?_,
          fun op retries delay attempt => ?_,
          fun op e t hconf h0 h1 => ?_⟩
  · cases retries <;> simp [retryModel, hop, hconf]
  · simp [retryModel, hop, hconf]
  · induction retries generalizing delay attempt with
    | zero =>
      cases hop : op attempt with
      | ok t => simp [retryModel, hop]
      | error e => cases hconf : isRetryableConflict e <;> simp [retryModel, hop, hconf]
    | succ r ih =>
      cases hop : op attempt with
      | ok t => simp [retryModel, hop]
      | error e =>
        cases hconf : isRetryableConflict e with
        | false => simp [retryModel, hop, hconf]
        | true =>
          have hrec := ih (delay * 2) (attempt + 1)
          have hstep : retryModel op (r + 1) delay attempt =
              ((retryModel op r (delay * 2) (attempt + 1)).1,
               delay :: (retryModel op r (delay * 2) (attempt + 1)).2) := by
            simp [retryModel, hop, hconf]
          rw [hstep]
          constructor
          · simpa using Nat.succ_le_succ hrec.1
          · simp only [List.length_cons]
            rw [List.range_succ_eq_map, List.map_cons, List.map_map]
            refine congrArg₂ List.cons (by simp) ?_
            rw [hrec.2]
            simp only [List.length_map, List.length_range]
            refine List.map_congr_left fun i _ => ?_
            simp only [Function.comp_apply, Nat.succ_eq_add_one, pow_succ]
            ring_nf
  · simp [retryDefault, retryModel, h0, h1, hconf]

/-- The store of the C4 counterexample: `pages.create` raises a
conflict-class error on its first invocation and would succeed on a
second; every other call succeeds outright. -/
def conflictCreateStore : NotionStore :=
  { pagesCreate := fun attempt =>
      if attempt = 0 then
        .error (.api "conflict_error" 409 "Conflict occurred while saving.")
      else .ok "page1"
    pagesUpdate := fun _ => .ok ()
    blocksList := .ok []
    blocksDelete := fun _ _ => .ok ()
    childrenAppend := fun _ => .ok ()
    query := fun _ => .ok none }

/-- C4 counterexample: `createRecipe`'s `pages.create` is not wrapped in
`retry`, so a conflict-class failure on its first attempt — with success
available on a second attempt — propagates immediately: the operation
ends in failure with zero retry delays, not in success after one delay as
the claim requires of every store operation. -/
theorem createRecipe_conflict_not_retried_cex :
    isRetryableConflict
      (.api "conflict_error" 409 "Conflict occurred while saving.") = true ∧
    conflictCreateStore.pagesCreate 0 =
      .error (.api "conflict_error" 409 "Conflict occurred while saving.") ∧
    conflictCreateStore.pagesCreate 1 = .ok "page1" ∧
    createRecipe conflictCreateStore =
      (.error (.other "Failed to create recipe: Conflict occurred while saving."),
       []) :=
  ⟨by decide, rfl, rfl, rfl⟩

/-- C4 (amended): the store operations wrapped in the `retry` helper —
`updateRecipe`'s property update, each block deletion, and the content
append — are retried on conflict-class errors with exponentially doubling
backoff up to the fixed 3-attempt ceiling, and non-conflict errors
propagate immediately without retry; for a wrapped operation, a conflict
on the first attempt followed by success on the second incurs exactly one
retry delay and ends in success. Store calls outside `updateRecipe` —
`createRecipe`'s page creation and the `findRecipeByUrl` query — are
issued exactly once, unretried, so their errors propagate with no delay. -/
theorem notionRetry_scope {T : Type} :
    (∀ (op : Nat → Except JsError T) (retries delay attempt : Nat) (e : JsError),
       op attempt = .error e → isRetryableConflict e = false →
       retryModel op retries delay attempt = (.error e, [])) ∧
    (∀ (op : Nat → Except JsError T) (r delay attempt : Nat) (e : JsError),
       op attempt = .error e → isRetryableConflict e = true →
       retryModel op (r + 1) delay attempt =
         ((retryModel op r (delay * 2) (attempt + 1)).1,
          delay :: (retryModel op r (delay * 2) (attempt + 1)).2)) ∧
    (∀ (op : Nat → Except JsError T) (retries delay attempt : Nat),
       (retryModel op retries delay attempt).2.length ≤ retries ∧
       (retryModel op retries delay attempt).2 =
         (List.range (retryModel op retries delay attempt).2.length).map
           (fun i => delay * 2 ^ i)) ∧
    (∀ (store : NotionStore) (e : JsError),
       isRetryableConflict e = true →
       store.pagesUpdate 0 = .error e → store.pagesUpdate 1 = .ok () →
       store.blocksList = .ok [] → store.childrenAppend 0 = .ok () →
       updateRecipe store = (.ok (), [1000])) ∧
    (∀ (store : NotionStore) (e : JsError),
       store.pagesCreate 0 = .error e →
       createRecipe store = (.error (wrapCreateError e), [])) ∧
    (∀ (store : NotionStore) (pageId : String),
       store.pagesCreate 0 = .ok pageId →
       createRecipe store = (.ok pageId, [])) ∧
    (∀ (store : NotionStore) (e : JsError),
       store.query 0 = .error e →
       findRecipeByUrl store = (.error (wrapFindError e), [])) := by
  refine ⟨retry_conflict_policy.1, retry_conflict_policy.2.1,
          retry_conflict_policy.2.2.1,
          fun store e hconf h0 h1 hbl happ => ?_,
          fun store e h0 => ?_, fun store pageId h0 => ?_,
          fun store e h0 => ?_⟩
  · simp [updateRecipe, retryModel, hconf, h0, h1, hbl, happ, deleteBlocksLoop]
  · simp [createRecipe, h0]
  · simp [createRecipe, h0]
  · simp [findRecipeByUrl, h0]

/-- The store of the C4 witness: the wrapped property update conflicts on
its first invocation and succeeds on the second; every other call
succeeds outright. -/
def conflictUpdateStore : NotionStore :=
  { pagesCreate := fun _ => .ok "page0"
    pagesUpdate := fun attempt =>
      if attempt = 0 then
        .error (.api "conflict_error" 409 "Conflict occurred while saving.")
      else .ok ()
    blocksList := .ok []
    blocksDelete := fun _ _ => .ok ()
    childrenAppend := fun _ => .ok ()
    query := fun _ => .ok none }

/-- Witness for the amended C4: the wrapped property update's conflict on
attempt 0 with success on attempt 1 yields success after exactly one
1000ms retry delay, while the unretried `pages.create` conflict of
`conflictCreateStore` propagates at once with no delay. -/
theorem notionRetry_scope_witness :
    updateRecipe conflictUpdateStore = (.ok (), [1000]) ∧
    createRecipe conflictCreateStore =
      (.error (.other "Failed to create recipe: Conflict occurred while saving."),
       []) :=
  ⟨(notionRetry_scope (T := Unit)).2.2.2.1 conflictUpdateStore
     (.api "conflict_error" 409 "Conflict occurred while saving.")
     (by decide) rfl rfl rfl rfl,
   (notionRetry_scope (T := Unit)).2.2.2.2.1 conflictCreateStore
     (.api "conflict_error" 409 "Conflict occurred while saving.") rfl⟩

/-- `insertDesc` never produces the empty list. -/
theorem insertDesc_ne_nil (x : Json × Nat) (l : List (Json × Nat)) :
    insertDesc x l ≠ [] := by
  cases l with
  | nil => simp [insertDesc]
  | cons y ys => simp only [insertDesc]; split <;> simp

/-- `sortDesc` of a nonempty list is nonempty. -/
theorem sortDesc_cons_ne_nil (x : Json × Nat) (l : List (Json × Nat)) :
    sortDesc (x :: l) ≠ [] := by
  simp only [sortDesc, List.foldr_cons]
  exact insertDesc_ne_nil _ _

/-- The head of a descending sort is a maximal element of the input. -/
theorem sortDesc_head_max (l : List (Json × Nat)) (x : Json × Nat)
    (t : List (Json × Nat)) (h : sortDesc l = x :: t) :
    x ∈ l ∧ ∀ y ∈ l, y.2 ≤ x.2 := by
  induction l generalizing x t with
  | nil => simp [sortDesc] at h
  | cons a l ih =>
    have h : insertDesc a (sortDesc l) = x :: t := h
    cases hs : sortDesc l with
    | nil =>
      rw [hs] at h
      simp only [insertDesc] at h
      obtain ⟨rfl, rfl⟩ := List.cons.inj h
      have hl : l = [] := by
        cases l with
        | nil => rfl
        | cons b bs => exact absurd hs (sortDesc_cons_ne_nil b bs)
      subst hl
      exact ⟨List.mem_singleton.mpr rfl, by intro y hy; rw [List.mem_singleton.mp hy]⟩
    | cons b bs =>
      rw [hs] at h
      obtain ⟨hb_mem, hb_max⟩ := ih b bs hs
      simp only [insertDesc] at h
      by_cases hab : a.2 ≤ b.2
      · rw [if_pos hab] at h
        obtain ⟨rfl, -⟩ := List.cons.inj h
        refine ⟨List.mem_cons_of_mem _ hb_mem, fun y hy => ?_⟩
        rcases List.mem_cons.mp hy with rfl | hyl
        · exact hab
        · exact hb_max y hyl
      · rw [if_neg hab] at h
        obtain ⟨rfl, -⟩ := List.cons.inj h
        push_neg at hab
        refine ⟨List.mem_cons_self _ _, fun y hy => ?_⟩
        rcases List.mem_cons.mp hy with rfl | hyl
        · exact le_refl _
        · exact (hb_max y hyl).trans (Nat.le_of_lt hab)

/-- `extractFromHtml` either fails with the exact diagnostic record (no
qualifying candidate) or returns the singleton head of the descending
sort. -/
theorem extractFromHtml_cases (doc : HtmlDoc) :
    (qualifyingSchemas doc = [] ∧
       extractFromHtml doc = .error ⟨doc.url, doc.htmlLength, doc.scripts.length⟩) ∨
    (∃ top rest,
       sortDesc ((qualifyingSchemas doc).map (fun s => (s, scoreRecipeSchema s)))
         = top :: rest ∧
       extractFromHtml doc = .ok [top.1]) := by
  cases hq : qualifyingSchemas doc with
  | nil => exact Or.inl ⟨rfl, by simp [extractFromHtml, hq, sortDesc]⟩
  | cons x xs =>
    right
    cases hs : sortDesc ((x :: xs).map fun s => (s, scoreRecipeSchema s)) with
    | nil =>
      rw [List.map_cons] at hs
      exact absurd hs (sortDesc_cons_ne_nil _ _)
    | cons top rest =>
      rw [List.map_cons] at hs
      refine ⟨top, rest, rfl, ?_⟩
      simp [extractFromHtml, hq, hs]

/-- C2: `extractFromHtml` throws the `NO_SCHEMA_FOUND` error exactly when
zero parsed JSON-LD blocks qualify (malformed blocks are skipped, not
fatal, since only successfully parsed scripts are considered), and the
error carries the document URL, the HTML length, and the number of
JSON-LD script blocks found. -/
theorem extractFromHtml_noSchemaFound (doc : HtmlDoc) :
    ((∃ e, extractFromHtml doc = .error e) ↔ qualifyingSchemas doc = []) ∧
    (∀ e, extractFromHtml doc = .error e →
      e = ⟨doc.url, doc.htmlLength, doc.scripts.length⟩) := by
  rcases extractFromHtml_cases doc with ⟨hq, herr⟩ | ⟨top, rest, hs, hok⟩
  · refine ⟨⟨fun _ => hq, fun _ => ⟨_, herr⟩⟩, fun e he => ?_⟩
    rw [herr] at he
    exact (Except.error.inj he).symm
  · constructor
    · constructor
      · rintro ⟨e, he⟩
        rw [hok] at he
        exact absurd he (by simp)
      · intro hq
        rw [hq] at hs
        simp [sortDesc] at hs
    · intro e he
      rw [hok] at he
      exact absurd he (by simp)

/-- Witness for C2 at a concrete document with two script blocks, one
malformed and one non-recipe: extraction fails and the error carries the
document's URL, HTML length and script count. -/
theorem extractFromHtml_noSchemaFound_witness :
    extractFromHtml ⟨"https://example.com/page", 7, [none, some (.str "x")]⟩ =
      .error ⟨"https://example.com/page", 7, 2⟩ ∧
    (⟨"https://example.com/page", 7, 2⟩ : NoSchemaError) =
      ⟨"https://example.com/page", 7,
       (⟨"https://example.com/page", 7, [none, some (.str "x")]⟩ : HtmlDoc).scripts.length⟩ :=
  ⟨rfl,
   (extractFromHtml_noSchemaFound ⟨"https://example.com/page", 7, [none, some (.str "x")]⟩).2
     ⟨"https://example.com/page", 7, 2⟩ rfl⟩

/-- C9: a parsed block whose declared `@context` differs from the exact
strings `"https://schema.org"` and `"http://schema.org"` — including
trailing-slash and non-string forms — is rejected by `isSchemaRecipe`,
whatever its other fields. -/
theorem isSchemaRecipe_context_exact (data ctx : Json)
    (hctx : data.getField "@context" = some ctx)
    (h1 : ctx ≠ .str "https://schema.org") (h2 : ctx ≠ .str "http://schema.org") :
    isSchemaRecipe data = false := by
  cases data with
  | obj fields =>
    cases ctx with
    | str c =>
      have hc1 : (c == "https://schema.org") = false := by
        rw [beq_eq_false_iff_ne]
        exact fun h => h1 (by rw [h])
      have hc2 : (c == "http://schema.org") = false := by
        rw [beq_eq_false_iff_ne]
        exact fun h => h2 (by rw [h])
      simp [isSchemaRecipe, hctx, hc1, hc2]
    | null => simp [isSchemaRecipe, hctx]
    | bool b => simp [isSchemaRecipe, hctx]
    | num n => simp [isSchemaRecipe, hctx]
    | arr xs => simp [isSchemaRecipe, hctx]
    | obj fs => simp [isSchemaRecipe, hctx]
  | null => rfl
  | bool b => rfl
  | num n => rfl
  | str s => rfl
  | arr xs => rfl

/-- A block that is a complete Recipe entity except that its `@context`
carries a trailing slash. -/
def candSlashCtx : Json :=
  .obj [("@context", .str "https://schema.org/"), ("@type", .str "Recipe"),
        ("name", .str "Soup"), ("recipeIngredient", .arr [.str "water"]),
        ("recipeInstructions", .arr [.str "boil"])]

/-- Witness for C9: the trailing-slash context block is otherwise a
complete Recipe entity yet is rejected. -/
theorem isSchemaRecipe_context_exact_witness :
    candSlashCtx.getField "@context" = some (.str "https://schema.org/") ∧
    (extractRecipeData candSlashCtx).hasField "name" = true ∧
    typeIsRecipe (((extractRecipeData candSlashCtx).getField "@type").getD .null) = true ∧
    (extractRecipeData candSlashCtx).hasField "recipeIngredient" = true ∧
    isSchemaRecipe candSlashCtx = false :=
  ⟨rfl, rfl, rfl, rfl,
   isSchemaRecipe_context_exact candSlashCtx (.str "https://schema.org/") rfl
     (fun h => by exact absurd (Json.str.inj h) (by decide))
     (fun h => by exact absurd (Json.str.inj h) (by decide))⟩

/-- A qualifying candidate with three populated scored fields but a short
ingredient list (completeness score 22). -/
def candLow : Json :=
  .obj [("@context", .str "https://schema.org"), ("@type", .str "Recipe"),
        ("name", .str "Toast"), ("recipeIngredient", .arr [.str "bread"]),
        ("description", .str "plain")]

/-- A qualifying candidate with two populated scored fields and five
ingredients (completeness score 25). -/
def candHigh : Json :=
  .obj [("@context", .str "https://schema.org"), ("@type", .str "Recipe"),
        ("name", .str "Stew"),
        ("recipeIngredient",
         .arr [.str "beef", .str "carrot", .str "onion", .str "salt", .str "thyme"])]

/-- A document embedding both qualifying candidates. -/
def docTwoCandidates : HtmlDoc :=
  ⟨"https://example.com/two", 500, [some candLow, some candHigh]⟩

/-- C1 counterexample: a document with two qualifying blocks yields a
singleton result holding only the top-scored candidate, not the full
ranked list of both. -/
theorem extractFromHtml_single_result_cex :
    (qualifyingSchemas docTwoCandidates).length = 2 ∧
    extractFromHtml docTwoCandidates = .ok [candHigh] ∧
    scoreRecipeSchema candHigh = 25 ∧
    scoreRecipeSchema candLow = 22 :=
  ⟨rfl, rfl, rfl, rfl⟩

/-- C1 (amended): when at least one block qualifies, `extractFromHtml`
returns a one-element list holding a top-scored qualifying candidate —
the internally computed ranking is consulted only for its head, and
alternates are not returned. -/
theorem extractFromHtml_returns_top_only (doc : HtmlDoc)
    (h : qualifyingSchemas doc ≠ []) :
    ∃ top, extractFromHtml doc = .ok [top] ∧ top ∈ qualifyingSchemas doc ∧
      ∀ s ∈ qualifyingSchemas doc, scoreRecipeSchema s ≤ scoreRecipeSchema top := by
  rcases extractFromHtml_cases doc with ⟨hq, _⟩ | ⟨top, rest, hs, hok⟩
  · exact absurd hq h
  · obtain ⟨hmem, hmax⟩ := sortDesc_head_max _ top rest hs
    obtain ⟨s, hsq, hpair⟩ := List.mem_map.mp hmem
    refine ⟨top.1, hok, ?_, fun s2 hs2 => ?_⟩
    · rw [← hpair]
      exact hsq
    · have h2 : (s2, scoreRecipeSchema s2) ∈
          (qualifyingSchemas doc).map (fun s => (s, scoreRecipeSchema s)) :=
        List.mem_map.mpr ⟨s2, hs2, rfl⟩
      have := hmax _ h2
      calc scoreRecipeSchema s2 ≤ top.2 := this
        _ = scoreRecipeSchema top.1 := by rw [← hpair]

/-- Witness for the amended C1 at the two-candidate document. -/
theorem extractFromHtml_returns_top_only_witness :
    qualifyingSchemas docTwoCandidates ≠ [] ∧
    ∃ top, extractFromHtml docTwoCandidates = .ok [top] ∧
      top ∈ qualifyingSchemas docTwoCandidates ∧
      ∀ s ∈ qualifyingSchemas docTwoCandidates,
        scoreRecipeSchema s ≤ scoreRecipeSchema top :=
  ⟨fun h => List.noConfusion h,
   extractFromHtml_returns_top_only docTwoCandidates (fun h => List.noConfusion h)⟩

/-- The nine fields that contribute presence weights to
`scoreRecipeSchema`. -/
def scoredFields : List String :=
  ["name", "recipeIngredient", "recipeInstructions", "recipeCuisine",
   "prepTime", "cookTime", "recipeYield", "description", "author"]

/-- The presence weight of each scored field. -/
def fieldWeight (k : String) : Nat :=
  if k == "name" || k == "recipeIngredient" || k == "recipeInstructions" then 10
  else if k == "recipeCuisine" || k == "prepTime" || k == "cookTime" ||
    k == "recipeYield" then 2
  else if k == "description" || k == "author" then 1
  else 0

/-- Per-term monotonicity of a presence weight under implication of
truthiness. -/
theorem iteWeightLe {a b : Bool} (w : Nat) (h : b = true → a = true) :
    (if b then w else 0) ≤ (if a then w else 0) := by
  cases b with
  | false => simp
  | true => simp [h rfl]

/-- C7 (amended): completeness scoring is monotonic in field population
provided the capped array-length bonuses do not decrease: if candidate A
has every populated scored field of candidate B, at least one more scored
field populated, and a length bonus at least B's, then A's score is
strictly greater. (Without the length-bonus proviso the claim fails, see
the counterexample.) -/
theorem scoreRecipeSchema_monotonic (A B : Json)
    (hsub : ∀ k ∈ scoredFields, truthyField (extractRecipeData B) k = true →
      truthyField (extractRecipeData A) k = true)
    (k0 : String) (hk0 : k0 ∈ scoredFields)
    (hA : truthyField (extractRecipeData A) k0 = true)
    (hB : truthyField (extractRecipeData B) k0 = false)
    (hlb : lengthBonus (extractRecipeData B) ≤ lengthBonus (extractRecipeData A)) :
    scoreRecipeSchema B < scoreRecipeSchema A := by
  have m1 := iteWeightLe (a := truthyField (extractRecipeData A) "name")
    (b := truthyField (extractRecipeData B) "name") 10
    (hsub "name" (by simp [scoredFields]))
  have m2 := iteWeightLe (a := truthyField (extractRecipeData A) "recipeIngredient")
    (b := truthyField (extractRecipeData B) "recipeIngredient") 10
    (hsub "recipeIngredient" (by simp [scoredFields]))
  have m3 := iteWeightLe (a := truthyField (extractRecipeData A) "recipeInstructions")
    (b := truthyField (extractRecipeData B) "recipeInstructions") 10
    (hsub "recipeInstructions" (by simp [scoredFields]))
  have m4 := iteWeightLe (a := truthyField (extractRecipeData A) "recipeCuisine")
    (b := truthyField (extractRecipeData B) "recipeCuisine") 2
    (hsub "recipeCuisine" (by simp [scoredFields]))
  have m5 := iteWeightLe (a := truthyField (extractRecipeData A) "prepTime")
    (b := truthyField (extractRecipeData B) "prepTime") 2
    (hsub "prepTime" (by simp [scoredFields]))
  have m6 := iteWeightLe (a := truthyField (extractRecipeData A) "cookTime")
    (b := truthyField (extractRecipeData B) "cookTime") 2
    (hsub "cookTime" (by simp [scoredFields]))
  have m7 := iteWeightLe (a := truthyField (extractRecipeData A) "recipeYield")
    (b := truthyField (extractRecipeData B) "recipeYield") 2
    (hsub "recipeYield" (by simp [scoredFields]))
  have m8 := iteWeightLe (a := truthyField (extractRecipeData A) "description")
    (b := truthyField (extractRecipeData B) "description") 1
    (hsub "description" (by simp [scoredFields]))
  have m9 := iteWeightLe (a := truthyField (extractRecipeData A) "author")
    (b := truthyField (extractRecipeData B) "author") 1
    (hsub "author" (by simp [scoredFields]))
  simp only [scoredFields, List.mem_cons, List.not_mem_nil, or_false] at hk0
  rcases hk0 with rfl | rfl | rfl | rfl | rfl | rfl | rfl | rfl | rfl <;>
    simp [scoreRecipeSchema, hA, hB] at * <;> omega

/-- C7 counterexample: `candLow` has every populated scored field of
`candHigh` (name, recipeIngredient) plus `description`, yet scores
strictly lower (22 < 25) because `candHigh`'s five-element ingredient
list earns a larger capped length bonus. -/
theorem scoreRecipeSchema_not_monotonic_cex :
    (scoredFields.all (fun k =>
       !(truthyField (extractRecipeData candHigh) k) ||
       truthyField (extractRecipeData candLow) k)) = true ∧
    truthyField (extractRecipeData candLow) "description" = true ∧
    truthyField (extractRecipeData candHigh) "description" = false ∧
    scoreRecipeSchema candLow < scoreRecipeSchema candHigh :=
  ⟨rfl, rfl, rfl, by decide⟩

/-- `candHigh` with a description added: a strict field-population
superset of `candHigh` with equal length bonuses. -/
def candHighDesc : Json :=
  .obj [("@context", .str "https://schema.org"), ("@type", .str "Recipe"),
        ("name", .str "Stew"),
        ("recipeIngredient",
         .arr [.str "beef", .str "carrot", .str "onion", .str "salt", .str "thyme"]),
        ("description", .str "rich")]

/-- Witness for the amended C7 at the concrete pair
`candHighDesc`/`candHigh`. -/
theorem scoreRecipeSchema_monotonic_witness :
    truthyField (extractRecipeData candHighDesc) "description" = true ∧
    truthyField (extractRecipeData candHigh) "description" = false ∧
    scoreRecipeSchema candHigh < scoreRecipeSchema candHighDesc :=
  ⟨rfl, rfl,
   scoreRecipeSchema_monotonic candHighDesc candHigh
     (by intro k hk; fin_cases hk <;> decide)
     "description" (by simp [scoredFields]) rfl rfl (by decide)⟩

/-- Bulleted ingredient blocks contribute no numbered items. -/
theorem filterMap_numberedText_bullets (l : List Json) :
    (l.map (fun j => Block.bulletItem j)).filterMap numberedText = [] := by
  induction l with
  | nil => rfl
  | cons x xs ih => simp [numberedText, ih]

/-- The "Notes" section contributes no numbered items. -/
theorem filterMap_numberedText_notes (o : Option Json) :
    (notesSection o).filterMap numberedText = [] := by
  cases o with
  | none => rfl
  | some v => by_cases h : v.truthy <;> simp [notesSection, h, numberedText]

/-- The description section contributes no numbered items. -/
theorem filterMap_numberedText_desc (o : Option Json) :
    (descSection o).filterMap numberedText = [] := by
  cases o with
  | none => rfl
  | some v => by_cases h : v.truthy <;> simp [descSection, h, numberedText]

/-- Numbered instruction blocks project back to their texts. -/
theorem filterMap_numberedText_numbered (l : List Instruction) :
    (l.map (fun i => Block.numberedItem i.text)).filterMap numberedText
      = l.map (fun i => i.text) := by
  induction l with
  | nil => rfl
  | cons x xs ih => simp [numberedText, ih]

/-- C6: for a candidate whose `recipeInstructions` is an array of strings,
the transformed instruction sequence has the same length with `{text: s}`
at each index, and the persisted content body renders exactly one numbered
list item per instruction in the same order. -/
theorem instructions_order_preserved (ss : List String) (schema : Json)
    (hq : isSchemaRecipe schema = true)
    (hi : (extractRecipeData schema).getField "recipeInstructions"
          = some (.arr (ss.map Json.str))) :
    ∃ r, transform schema = .ok r ∧
      r.instructions = ss.map (fun s => (⟨s⟩ : Instruction)) ∧
      r.instructions.length = ss.length ∧
      (createChildren r).filterMap numberedText = ss := by
  have hinstr : extractInstructions
      ((extractRecipeData schema).getField "recipeInstructions")
      = ss.map (fun s => (⟨s⟩ : Instruction)) := by
    rw [hi]
    simp [extractInstructions, Json.truthy, List.map_map]
    exact fun a _ => rfl
  cases htr : transform schema with
  | error msg =>
    simp only [transform, hq, if_true] at htr
    exact absurd htr (by simp)
  | ok r =>
    simp only [transform, hq, if_true] at htr
    have hrec := Except.ok.inj htr
    have hr : r.instructions = ss.map (fun s => (⟨s⟩ : Instruction)) := by
      rw [← hrec]
      exact hinstr
    have hnotes : r.notes = none := by
      rw [← hrec]
    refine ⟨r, rfl, hr, by rw [hr]; simp, ?_⟩
    simp only [createChildren, hnotes, hr, List.filterMap_append,
      filterMap_numberedText_bullets, filterMap_numberedText_numbered,
      filterMap_numberedText_notes, filterMap_numberedText_desc]
    simp [numberedText, List.map_map, Function.comp_def]

/-- A qualifying candidate whose instructions are the two plain strings
of the spec's example. -/
def candSteps : Json :=
  .obj [("@context", .str "https://schema.org"), ("@type", .str "Recipe"),
        ("name", .str "Steps"),
        ("recipeInstructions", .arr [.str "Step 1", .str "Step 2"])]

/-- Witness for C6 at the concrete two-step candidate. -/
theorem instructions_order_preserved_witness :
    isSchemaRecipe candSteps = true ∧
    ∃ r, transform candSteps = .ok r ∧
      r.instructions = ["Step 1", "Step 2"].map (fun s => (⟨s⟩ : Instruction)) ∧
      r.instructions.length = (["Step 1", "Step 2"] : List String).length ∧
      (createChildren r).filterMap numberedText = ["Step 1", "Step 2"] :=
  ⟨rfl, instructions_order_preserved ["Step 1", "Step 2"] candSteps rfl rfl⟩

/-- `dropWhile` is idempotent. -/
theorem dropWhile_dropWhile (p : Char → Bool) (l : List Char) :
    (l.dropWhile p).dropWhile p = l.dropWhile p := by
  induction l with
  | nil => rfl
  | cons c cs ih =>
    by_cases h : p c
    · simp only [List.dropWhile_cons_of_pos h]
      exact ih
    · simp only [List.dropWhile_cons_of_neg h]

/-- The head of a `dropWhile` residue fails the predicate. -/
theorem dropWhile_head_false (p : Char → Bool) (l : List Char) (c : Char)
    (t : List Char) (h : l.dropWhile p = c :: t) : p c = false := by
  induction l with
  | nil => simp at h
  | cons a as ih =>
    by_cases hp : p a
    · rw [List.dropWhile_cons_of_pos hp] at h
      exact ih h
    · rw [List.dropWhile_cons_of_neg hp] at h
      obtain ⟨rfl, -⟩ := List.cons.inj h
      exact Bool.eq_false_iff.mpr hp

/-- Trimming both ends is idempotent. -/
theorem wsDropBoth_idem (l : List Char) :
    wsDropBoth (wsDropBoth l) = wsDropBoth l := by
  unfold wsDropBoth
  set A := l.dropWhile Char.isWhitespace with hA
  set B := A.reverse.dropWhile Char.isWhitespace with hB
  have h1 : B.reverse.dropWhile Char.isWhitespace = B.reverse := by
    cases hBr : B.reverse with
    | nil => rfl
    | cons c t2 =>
      obtain ⟨t, ht⟩ := List.dropWhile_suffix (l := A.reverse) Char.isWhitespace
      have hAeq : A = B.reverse ++ t.reverse := by
        have h2 := congrArg List.reverse ht
        rw [List.reverse_append, List.reverse_reverse] at h2
        rw [← h2, ← hB]
      have hc : Char.isWhitespace c = false := by
        apply dropWhile_head_false Char.isWhitespace l c (t2 ++ t.reverse)
        rw [← hA, hAeq, hBr]
        rfl
      rw [hBr] at hAeq
      rw [List.dropWhile_cons_of_neg]
      simp [hc]
  rw [h1, List.reverse_reverse, hB, dropWhile_dropWhile]

/-- `jsTrim` is idempotent. -/
theorem jsTrim_idem (s : String) : jsTrim (jsTrim s) = jsTrim s := by
  unfold jsTrim
  exact congrArg String.mk (wsDropBoth_idem s.data)

/-- C8 counterexample: splitting `"a\n \nb"` — whose middle line is a
single space — filters before trimming, so the resulting URL list contains
an empty entry. -/
theorem parseUrlList_ws_line_cex :
    parseUrlList "a\n \nb" = ["a", "", "b"] ∧ "" ∈ parseUrlList "a\n \nb" :=
  ⟨rfl, by decide⟩

/-- C8 (amended): the URL list is built by splitting on newlines, dropping
empty lines, then trimming each surviving line; hence every entry is fully
trimmed (no surrounding whitespace) and arises as the trim of a nonempty
line — but a line consisting solely of whitespace survives the filter and
trims to an empty entry. -/
theorem parseUrlList_entries (content : String) (u : String)
    (hu : u ∈ parseUrlList content) :
    jsTrim u = u ∧
    ∃ line, line ∈ jsSplitNewline content ∧ line ≠ "" ∧ u = jsTrim line := by
  simp only [parseUrlList, List.mem_map, List.mem_filter] at hu
  obtain ⟨line, ⟨hline, hne⟩, rfl⟩ := hu
  exact ⟨jsTrim_idem line, ⟨line, hline, by simpa using hne, rfl⟩⟩

/-- Witness for the amended C8 at the concrete file content `"a\n \nb"`
and its empty entry. -/
theorem parseUrlList_entries_witness :
    "" ∈ parseUrlList "a\n \nb" ∧
    (jsTrim "" = "" ∧
     ∃ line, line ∈ jsSplitNewline "a\n \nb" ∧ line ≠ "" ∧ "" = jsTrim line) :=
  ⟨by decide, parseUrlList_entries "a\n \nb" "" (by decide)⟩

/-- The effective batch size is always positive (`|| 5` fallback). -/
theorem effectiveBatchSize_pos (opts : ChopOptions) :
    effectiveBatchSize opts ≠ 0 := by
  unfold effectiveBatchSize
  cases hb : opts.batchSize with
  | none => simp
  | some n => cases n <;> simp

/-- Consecutive batches reassemble to the original URL list. -/
theorem chunkUrls_flatten (bs : Nat) (hbs : bs ≠ 0) (urls : List String) :
    (chunkUrls bs urls).flatten = urls := by
  induction urls using chunkUrls.induct bs with
  | case1 l h =>
    rw [chunkUrls, dif_pos h]
    simp only [Bool.or_eq_true, beq_iff_eq, List.isEmpty_iff] at h
    rcases h with h | h
    · simp [h]
    · exact absurd h hbs
  | case2 l h ih =>
    rw [chunkUrls, dif_neg h]
    simp only [List.flatten_cons, ih]
    exact List.take_append_drop bs l

/-- Every batch is nonempty and no longer than the batch size. -/
theorem chunkUrls_sizes (bs : Nat) (urls : List String) :
    ∀ batch ∈ chunkUrls bs urls, batch ≠ [] ∧ batch.length ≤ bs := by
  induction urls using chunkUrls.induct bs with
  | case1 l h =>
    rw [chunkUrls, dif_pos h]
    intro batch hb
    simp at hb
  | case2 l h ih =>
    rw [chunkUrls, dif_neg h]
    intro batch hb
    simp only [Bool.or_eq_true, beq_iff_eq, List.isEmpty_iff, not_or] at h
    rcases List.mem_cons.mp hb with rfl | hb2
    · constructor
      · simp only [ne_eq, List.take_eq_nil_iff, not_or]
        exact ⟨h.2, h.1⟩
      · simp only [List.length_take]
        exact Nat.min_le_left bs l.length
    · exact ih batch hb2

/-- A 7-element URL list at batch size 5 chops into batches of 5 and 2. -/
theorem chunkUrls_seven_five (urls : List String) (h7 : urls.length = 7) :
    (chunkUrls 5 urls).map List.length = [5, 2] := by
  have hne : urls.isEmpty = false := by
    cases urls with
    | nil => simp at h7
    | cons a l => rfl
  have hd5 : (urls.drop 5).length = 2 := by simp [List.length_drop, h7]
  have hne2 : (urls.drop 5).isEmpty = false := by
    cases hd : urls.drop 5 with
    | nil => rw [hd] at hd5; simp at hd5
    | cons a l => rfl
  have hdd : (urls.drop 5).drop 5 = [] := by
    apply List.eq_nil_of_length_eq_zero
    simp only [List.length_drop, h7]
  rw [chunkUrls, dif_neg (by simp [hne])]
  rw [chunkUrls, dif_neg (by simp [hne2])]
  rw [hdd, chunkUrls, dif_pos (by simp)]
  simp [List.length_take, List.length_drop, h7]

/-- The total number of result entries recorded for a URL. -/
def urlTally (res : BatchResults) (u : String) : Nat :=
  (res.successful.map Prod.fst).count u + (res.failed.map Prod.fst).count u +
  (res.skipped.map Prod.fst).count u

/-- Recording one outcome adds exactly one tally entry for its URL. -/
theorem pushOutcome_tally (res : BatchResults) (url u : String) (o : UrlOutcome) :
    urlTally (pushOutcome res url o) u
      = urlTally res u + (if url = u then 1 else 0) := by
  cases o <;>
    simp [pushOutcome, urlTally, List.count_append, List.count_cons,
      List.count_nil] <;>
    split <;> omega

/-- Processing a list of URLs adds one tally entry per occurrence. -/
theorem foldl_push_tally (f : String → UrlOutcome) (l : List String)
    (acc : BatchResults) (u : String) :
    urlTally (l.foldl (fun a url => pushOutcome a url (f url)) acc) u
      = urlTally acc u + l.count u := by
  induction l generalizing acc with
  | nil => simp
  | cons b bs ih =>
    rw [List.foldl_cons, ih, pushOutcome_tally, List.count_cons]
    have : (if b == u then 1 else 0) = (if b = u then 1 else 0) := by
      split <;> split <;> simp_all
    omega

/-- Already-recorded failures survive further processing. -/
theorem foldl_push_failed_mono (f : String → UrlOutcome) (l : List String)
    (acc : BatchResults) (x : String × String) (hx : x ∈ acc.failed) :
    x ∈ (l.foldl (fun a url => pushOutcome a url (f url)) acc).failed := by
  induction l generalizing acc with
  | nil => exact hx
  | cons b bs ih =>
    rw [List.foldl_cons]
    apply ih
    cases hf : f b with
    | succeeded recipeId => exact hx
    | failed msg => exact List.mem_append_left _ hx
    | skipped reason => exact hx

/-- A URL whose pipeline fails is recorded in the failed list. -/
theorem foldl_push_failed_mem (f : String → UrlOutcome) (l : List String) :
    ∀ (acc : BatchResults) (u msg : String), u ∈ l → f u = .failed msg →
    (u, msg) ∈ (l.foldl (fun a url => pushOutcome a url (f url)) acc).failed := by
  induction l with
  | nil =>
    intro acc u msg hin _
    simp at hin
  | cons b bs ih =>
    intro acc u msg hin hout
    rcases List.mem_cons.mp hin with rfl | hbs
    · rw [List.foldl_cons]
      apply foldl_push_failed_mono
      show (u, msg) ∈ (pushOutcome acc u (f u)).failed
      rw [hout]
      exact List.mem_append_right _ (List.mem_singleton.mpr rfl)
    · rw [List.foldl_cons]
      exact ih _ u msg hbs hout

/-- The chunked batch loop is the flat per-URL loop over the whole list. -/
theorem executeChop_flat (env : String → UrlEffects) (opts : ChopOptions)
    (urls : List String) :
    executeChop env opts urls =
      urls.foldl (fun acc url =>
        pushOutcome acc url (processUrl opts urls.length (env url))) ⟨[], [], []⟩ := by
  unfold executeChop processUrls
  rw [← List.foldl_flatten, chunkUrls_flatten _ (effectiveBatchSize_pos opts)]

/-- C3: the orchestrator partitions the URL list into consecutive batches
of the effective batch size (7 URLs at size 5 give batches of 5 then 2);
after the run every URL appears in exactly one result entry across
succeeded/failed/skipped (counted with multiplicity); and a URL whose
pipeline raises an exception is recorded as that URL's failed entry
without removing any sibling's entry. -/
theorem executeChop_partition (env : String → UrlEffects) (opts : ChopOptions)
    (urls : List String) :
    (chunkUrls (effectiveBatchSize opts) urls).flatten = urls ∧
    (∀ batch ∈ chunkUrls (effectiveBatchSize opts) urls,
        batch ≠ [] ∧ batch.length ≤ effectiveBatchSize opts) ∧
    (urls.length = 7 → effectiveBatchSize opts = 5 →
        (chunkUrls (effectiveBatchSize opts) urls).map List.length = [5, 2]) ∧
    (∀ u : String,
        ((executeChop env opts urls).successful.map Prod.fst).count u +
        ((executeChop env opts urls).failed.map Prod.fst).count u +
        ((executeChop env opts urls).skipped.map Prod.fst).count u
          = urls.count u) ∧
    (∀ u ∈ urls, ∀ msg, processUrl opts urls.length (env u) = .failed msg →
        (u, msg) ∈ (executeChop env opts urls).failed) := by
  refine ⟨chunkUrls_flatten _ (effectiveBatchSize_pos opts) urls,
          chunkUrls_sizes _ urls, fun h7 h5 => ?_, fun u => ?_, fun u hu msg hmsg => ?_⟩
  · rw [h5]
    exact chunkUrls_seven_five urls h7
  · have := foldl_push_tally
      (fun url => processUrl opts urls.length (env url)) urls ⟨[], [], []⟩ u
    rw [executeChop_flat]
    simpa [urlTally] using this
  · rw [executeChop_flat]
    exact foldl_push_failed_mem _ urls ⟨[], [], []⟩ u msg hu hmsg

/-- A seven-URL batch input. -/
def sevenUrls : List String := ["u1", "u2", "u3", "u4", "u5", "u6", "u7"]

/-- Concrete per-URL effects: `u3`'s store existence lookup throws, every
other URL fetches a page containing the qualifying candidate and stores it
successfully. -/
def chopEnvW : String → UrlEffects := fun url =>
  if url = "u3" then
    ⟨.error "boom", false, .error "net down", .ok none, .ok (), .ok "id3"⟩
  else
    ⟨.ok none, false, .ok ⟨"https://x", 40, [some candHigh]⟩, .ok none, .ok (),
     .ok "pageX"⟩

/-- The orchestrator options of the witness run: batch size 5, full sync. -/
def chopOptsW : ChopOptions := ⟨false, some 5⟩

/-- Witness for C3: the concrete seven-URL run at batch size 5 with `u3`
throwing yields batches of 5 and 2, a single result entry for `u3`, and
`u3`'s exception recorded as its failed entry. -/
theorem executeChop_partition_witness :
    ((chunkUrls (effectiveBatchSize chopOptsW) sevenUrls).map List.length = [5, 2]) ∧
    (((executeChop chopEnvW chopOptsW sevenUrls).successful.map Prod.fst).count "u3" +
     ((executeChop chopEnvW chopOptsW sevenUrls).failed.map Prod.fst).count "u3" +
     ((executeChop chopEnvW chopOptsW sevenUrls).skipped.map Prod.fst).count "u3"
       = sevenUrls.count "u3") ∧
    ("u3", "boom") ∈ (executeChop chopEnvW chopOptsW sevenUrls).failed :=
  ⟨(executeChop_partition chopEnvW chopOptsW sevenUrls).2.2.1 rfl rfl,
   (executeChop_partition chopEnvW chopOptsW sevenUrls).2.2.2.1 "u3",
   (executeChop_partition chopEnvW chopOptsW sevenUrls).2.2.2.2 "u3" (by decide)
     "boom" rfl⟩
